import Mathlib

/-!
Verification of the trivia server core: the per-room game engine
(`server GameEngine`), the room directory (`RoomManager`), the socket
coordination layer (`SocketHandler.handleSubmitAnswer`), and the global
leaderboard (`GlobalLeaderboard`).  Each TypeScript class is embedded as a
Lean structure holding its fields, and each method as a pure function from
the old state to a result together with the new state.  JavaScript `Date.now()`
values enter as explicit `now : Nat` parameters, `Math.random()` draws enter
as explicit streams of `Fin` values, and the sha256 hash used by the
leaderboard enters as an explicit `hash : String → String` parameter.
-/

namespace Trivia

/-- Question record from `packages/shared`: numeric id, question text, optional
audio url, answer options, and the index of the correct option. -/
structure Question where
  id : Nat
  question : String
  audioUrl : Option String
  options : List String
  correctAnswer : Nat
deriving DecidableEq, Inhabited

/-- Player record from `packages/shared`. -/
structure Player where
  id : String
  name : String
  score : Nat
  isConnected : Bool
  hasAnswered : Bool
  isHost : Bool
deriving DecidableEq, Inhabited

/-- Client-facing question shape built by `GameEngine.toClientQuestion`:
the `correctAnswer` field of `Question` has no counterpart here. -/
structure ClientQuestion where
  id : Nat
  question : String
  options : List String
  currentQuestionNumber : Nat
  totalQuestions : Nat
  audioUrl : Option String
deriving DecidableEq, Inhabited

/-- Association-list lookup standing in for JavaScript `Map.get` (first
binding of the key wins, as keys are never duplicated by insertion). -/
def alLookup {α : Type} (l : List (String × α)) (k : String) : Option α :=
  (l.find? (fun kv => kv.1 = k)).map (fun kv => kv.2)

/-- Association-list insert standing in for JavaScript `Map.set`: replaces the
binding in place when the key is present, otherwise appends. -/
def alInsert {α : Type} (l : List (String × α)) (k : String) (v : α) :
    List (String × α) :=
  if (alLookup l k).isSome then
    l.map (fun kv => if kv.1 = k then (k, v) else kv)
  else
    l ++ [(k, v)]

/-- Association-list delete standing in for JavaScript `Map.delete`. -/
def alErase {α : Type} (l : List (String × α)) (k : String) :
    List (String × α) :=
  l.filter (fun kv => kv.1 ≠ k)

/-! ## GameEngine (server/src/services/GameEngine.ts)

The class fields become a state record; each method maps the state to a
result-record plus the successor state.  The in-place mutation of the player
object returned by `players.find(...)` is rendered by rewriting the first
list entry whose id matches. -/

/-- Field state of a `GameEngine` instance. -/
structure EngineState where
  questions : List Question
  players : List Player
  currentQuestionIndex : Nat
  gameStarted : Bool
  gameFinished : Bool
  gameStartTime : Option Nat
  gameEndTime : Option Nat
  firstCorrectAnswerer : Option String
deriving DecidableEq, Inhabited

/-- The `GameEngine` constructor (player objects are copied, which an
immutable embedding gets for free). -/
def newEngine (questions : List Question) (players : List Player) :
    EngineState :=
  { questions := questions
    players := players
    currentQuestionIndex := 0
    gameStarted := false
    gameFinished := false
    gameStartTime := none
    gameEndTime := none
    firstCorrectAnswerer := none }

/-- Result record of `GameEngine.startGame`. -/
structure StartGameResult where
  success : Bool
  question : Option ClientQuestion
  error : Option String
deriving DecidableEq, Inhabited

/-- Result record of `GameEngine.submitAnswer`. -/
structure SubmitAnswerResult where
  success : Bool
  isCorrect : Option Bool
  pointsAwarded : Option Nat
  error : Option String
deriving DecidableEq, Inhabited

/-- Result record of `GameEngine.nextQuestion`; an absent (undefined)
`gameFinished` field is `none`. -/
structure NextQuestionResult where
  success : Bool
  question : Option ClientQuestion
  gameFinished : Option Bool
  error : Option String
deriving DecidableEq, Inhabited

/-- Embeds `GameEngine.toClientQuestion`: copies the answer-free fields and
annotates with the 1-based question number and total count.  The guard
`if (question.audioUrl)` is JavaScript truthiness, so an empty-string url is
dropped exactly like a missing one. -/
def toClientQuestion (st : EngineState) (q : Question) : ClientQuestion :=
  { id := q.id
    question := q.question
    options := q.options
    currentQuestionNumber := st.currentQuestionIndex + 1
    totalQuestions := st.questions.length
    audioUrl :=
      match q.audioUrl with
      | none => none
      | some s => if s = "" then none else some s }

/-- Embeds `GameEngine.startGame`. -/
def startGame (now : Nat) (st : EngineState) :
    StartGameResult × EngineState :=
  if st.gameStarted then
    ({ success := false, question := none,
       error := some "Game already started" }, st)
  else if st.questions.length = 0 then
    ({ success := false, question := none,
       error := some "No questions available" }, st)
  else if st.players.length = 0 then
    ({ success := false, question := none,
       error := some "No players in game" }, st)
  else
    let st' := { st with gameStarted := true, gameStartTime := some now }
    match st'.questions with
    | [] => ({ success := false, question := none,
               error := some "No questions available" }, st')
    | q0 :: _ =>
      ({ success := true, question := some (toClientQuestion st' q0),
         error := none }, st')

/-- Rewrites the first player whose id matches, mirroring the in-place
mutation of the object returned by `this.players.find(p => p.id === playerId)`. -/
def updateFirstPlayer (f : Player → Player) (pid : String) :
    List Player → List Player
  | [] => []
  | p :: ps =>
    if p.id = pid then f p :: ps else p :: updateFirstPlayer f pid ps

/-- JavaScript truthiness of the `firstCorrectAnswerer : string | null` slot:
`null` and the empty string are both falsy. -/
def slotFalsy : Option String → Bool
  | none => true
  | some s => s = ""

/-- Embeds `GameEngine.submitAnswer`.  The answer index is an `Int` because
the source checks `answerIndex < 0` on an arbitrary number.  Reading
`this.questions[this.currentQuestionIndex]` throws in JavaScript when the
index is out of range (the socket layer catches it); that path is `none`. -/
def submitAnswer (pid : String) (answerIndex : Int) (st : EngineState) :
    Option (SubmitAnswerResult × EngineState) :=
  if ¬ st.gameStarted then
    some ({ success := false, isCorrect := none, pointsAwarded := none,
            error := some "Game not started" }, st)
  else if st.gameFinished then
    some ({ success := false, isCorrect := none, pointsAwarded := none,
            error := some "Game already finished" }, st)
  else
    match st.players.find? (fun p => p.id = pid) with
    | none =>
      some ({ success := false, isCorrect := none, pointsAwarded := none,
              error := some "Player not found" }, st)
    | some player =>
      if player.hasAnswered then
        some ({ success := false, isCorrect := none, pointsAwarded := none,
                error := some "Player already answered" }, st)
      else
        match st.questions.get? st.currentQuestionIndex with
        | none => none
        | some currentQuestion =>
          if answerIndex < 0 ∨
              (currentQuestion.options.length : Int) ≤ answerIndex then
            some ({ success := false, isCorrect := none,
                    pointsAwarded := none,
                    error := some "Invalid answer index" }, st)
          else
            let isCorrect := answerIndex = (currentQuestion.correctAnswer : Int)
            let pointsAwarded : Nat :=
              if isCorrect then
                if slotFalsy st.firstCorrectAnswerer then 150 else 100
              else 0
            let firstCorrect' :=
              if isCorrect ∧ slotFalsy st.firstCorrectAnswerer then some pid
              else st.firstCorrectAnswerer
            let upd : Player → Player := fun p =>
              if isCorrect then
                { p with hasAnswered := true, score := p.score + pointsAwarded }
              else
                { p with hasAnswered := true }
            some ({ success := true, isCorrect := some (decide isCorrect),
                    pointsAwarded := some pointsAwarded, error := none },
                  { st with
                      players := updateFirstPlayer upd pid st.players
                      firstCorrectAnswerer := firstCorrect' })

/-- Embeds `GameEngine.nextQuestion`: resets every `hasAnswered` flag and the
first-correct slot, advances the index, and finishes the game (recording the
end time) once the index reaches the question count. -/
def nextQuestion (now : Nat) (st : EngineState) :
    NextQuestionResult × EngineState :=
  if ¬ st.gameStarted then
    ({ success := false, question := none, gameFinished := none,
       error := some "Game not started" }, st)
  else if st.gameFinished then
    ({ success := false, question := none, gameFinished := none,
       error := some "Game already finished" }, st)
  else
    let players' := st.players.map (fun p => { p with hasAnswered := false })
    let idx' := st.currentQuestionIndex + 1
    let st1 := { st with
                   players := players'
                   firstCorrectAnswerer := none
                   currentQuestionIndex := idx' }
    if st.questions.length ≤ idx' then
      ({ success := true, question := none, gameFinished := some true,
         error := none },
       { st1 with gameFinished := true, gameEndTime := some now })
    else
      ({ success := true,
         question := some (toClientQuestion st1 (st1.questions.getD idx' default)),
         gameFinished := none, error := none }, st1)

/-- Embeds `GameEngine.getCurrentQuestion`. -/
def getCurrentQuestion (st : EngineState) : Option ClientQuestion :=
  if ¬ st.gameStarted ∨ st.gameFinished then none
  else (st.questions.get? st.currentQuestionIndex).map (toClientQuestion st)

/-- Embeds `GameEngine.getScores` (the id-keyed score record, as the list of
its bindings in player order). -/
def getScores (st : EngineState) : List (String × Nat) :=
  st.players.map (fun p => (p.id, p.score))

/-! ## RoomManager (the complete services/RoomManager implementation)

`Math.random()` draws are passed in as `Fin` values: one room-code attempt is
six alphabet indices, and `generateRoomCode` consumes a list of attempts as
its retry budget (the do-while loop retries while the code collides). -/

/-- Room state tag from `packages/shared`. -/
inductive RoomState where
  | waiting
  | playing
  | finished
deriving DecidableEq, Inhabited

/-- Room record from `packages/shared`; `createdAt` is the creation
timestamp. -/
structure Room where
  code : String
  players : List Player
  state : RoomState
  currentQuestionIndex : Nat
  maxPlayers : Nat
  createdAt : Nat
deriving DecidableEq, Inhabited

/-- Field state of the `RoomManager`: the code-keyed room map and the
player-to-room index. -/
structure RMState where
  rooms : List (String × Room)
  playerRoomMap : List (String × String)
deriving DecidableEq, Inhabited

/-- The 36-character code alphabet
`'ABCDEFGHIJKLMNOPQRSTUVWXYZ0123456789'` of `generateRoomCode`. -/
def codeAlphabet : List Char :=
  ['A', 'B', 'C', 'D', 'E', 'F', 'G', 'H', 'I', 'J', 'K', 'L', 'M',
   'N', 'O', 'P', 'Q', 'R', 'S', 'T', 'U', 'V', 'W', 'X', 'Y', 'Z',
   '0', '1', '2', '3', '4', '5', '6', '7', '8', '9']

/-- One body of the code-generation loop: six random alphabet indices become
a six-character code. -/
def makeCode (attempt : Fin 6 → Fin 36) : String :=
  String.mk ((List.finRange 6).map (fun i => codeAlphabet.getD (attempt i).val 'A'))

/-- Embeds the do-while loop of `RoomManager.generateRoomCode`: regenerate
while the code is already a key of the room map.  `none` models exhausting
the supplied draws (the loop in the source would keep spinning). -/
def generateRoomCode (rooms : List (String × Room)) :
    List (Fin 6 → Fin 36) → Option String
  | [] => none
  | attempt :: rest =>
    let code := makeCode attempt
    if (alLookup rooms code).isSome then generateRoomCode rooms rest
    else some code

/-- Embeds `RoomManager.createRoom`: generates a fresh code, installs the
creator as sole host of a waiting room, and records both map entries. -/
def createRoom (attempts : List (Fin 6 → Fin 36)) (playerId playerName : String)
    (now : Nat) (st : RMState) : Option (Room × RMState) :=
  (generateRoomCode st.rooms attempts).map (fun roomCode =>
    let host : Player :=
      { id := playerId, name := playerName, score := 0, isConnected := true,
        hasAnswered := false, isHost := true }
    let room : Room :=
      { code := roomCode, players := [host], state := RoomState.waiting,
        currentQuestionIndex := 0, maxPlayers := 8, createdAt := now }
    (room,
     { rooms := alInsert st.rooms roomCode room
       playerRoomMap := alInsert st.playerRoomMap playerId roomCode }))

/-- Result record of `RoomManager.joinRoom`. -/
structure JoinRoomResult where
  success : Bool
  room : Option Room
  error : Option String
deriving DecidableEq, Inhabited

/-- Embeds `RoomManager.joinRoom` with its error precedence: absent room,
full room, duplicate player id, then non-waiting state. -/
def joinRoom (roomCode playerId playerName : String) (st : RMState) :
    JoinRoomResult × RMState :=
  match alLookup st.rooms roomCode with
  | none =>
    ({ success := false, room := none, error := some "Room not found" }, st)
  | some room =>
    if room.maxPlayers ≤ room.players.length then
      ({ success := false, room := none, error := some "Room is full" }, st)
    else if room.players.any (fun p => p.id = playerId) then
      ({ success := false, room := none,
         error := some "Player already in room" }, st)
    else if room.state ≠ RoomState.waiting then
      ({ success := false, room := none,
         error := some "Game already in progress" }, st)
    else
      let newPlayer : Player :=
        { id := playerId, name := playerName, score := 0, isConnected := true,
          hasAnswered := false, isHost := false }
      let room' := { room with players := room.players ++ [newPlayer] }
      ({ success := true, room := some room', error := none },
       { rooms := alInsert st.rooms roomCode room'
         playerRoomMap := alInsert st.playerRoomMap playerId roomCode })

/-- Result record of `RoomManager.leaveRoom`. -/
structure LeaveRoomResult where
  success : Bool
  error : Option String
deriving DecidableEq, Inhabited

/-- Splices out the first player whose id matches, returning it with the
remaining list, exactly like `findIndex` followed by `splice(index, 1)`;
`none` is the `findIndex === -1` case. -/
def removeFirstPlayer (pid : String) :
    List Player → Option (Player × List Player)
  | [] => none
  | p :: ps =>
    if p.id = pid then some (p, ps)
    else (removeFirstPlayer pid ps).map (fun qqs => (qqs.1, p :: qqs.2))

/-- Embeds `RoomManager.leaveRoom`: removes the player and its index entry;
if the leaver was host and players remain, the first remaining player (the
earliest joined) becomes host; an emptied room is deleted from the map. -/
def leaveRoom (roomCode playerId : String) (st : RMState) :
    LeaveRoomResult × RMState :=
  match alLookup st.rooms roomCode with
  | none => ({ success := false, error := some "Room not found" }, st)
  | some room =>
    match removeFirstPlayer playerId room.players with
    | none => ({ success := false, error := some "Player not in room" }, st)
    | some (leavingPlayer, rest) =>
      let players' :=
        if leavingPlayer.isHost ∧ rest.length ≠ 0 then
          match rest with
          | [] => []
          | q :: qs => { q with isHost := true } :: qs
        else rest
      let rooms' :=
        if players'.length = 0 then alErase st.rooms roomCode
        else alInsert st.rooms roomCode { room with players := players' }
      ({ success := true, error := none },
       { rooms := rooms'
         playerRoomMap := alErase st.playerRoomMap playerId })

/-- Reachable `RoomManager` states: the empty manager, closed under
`createRoom` (when its code generation terminates), `joinRoom`, and
`leaveRoom`. -/
inductive Reach : RMState → Prop
  | init : Reach { rooms := [], playerRoomMap := [] }
  | create (st : RMState) (attempts : List (Fin 6 → Fin 36))
      (playerId playerName : String) (now : Nat) (room : Room) (st' : RMState) :
      Reach st → createRoom attempts playerId playerName now st = some (room, st') →
      Reach st'
  | join (st : RMState) (roomCode playerId playerName : String) :
      Reach st → Reach (joinRoom roomCode playerId playerName st).2
  | leave (st : RMState) (roomCode playerId : String) :
      Reach st → Reach (leaveRoom roomCode playerId st).2

/-! ## SocketHandler.handleSubmitAnswer (server/src/socket/SocketHandler.ts)

Only the state this handler touches is modelled: the per-socket data record
and the room-code-keyed map of game engines.  Outbound `emit` calls become a
list of events in emission order.  The try/catch around the body maps a
thrown engine exception to the catch-branch error event. -/

/-- The per-connection `socket.data` record. -/
structure SocketData where
  playerId : String
  playerName : String
  currentRoom : Option String
  inLobby : Bool
deriving DecidableEq, Inhabited

/-- Events emitted by `handleSubmitAnswer`, in emission order. -/
inductive ServerEvent where
  | playerAnswered (playerId : String)
  | roundResults (scores : List (String × Nat)) (correctAnswer : Option Nat)
  | errorEvent (message : String)
deriving DecidableEq

/-- Recognizes a round-results broadcast. -/
def isRoundResults : ServerEvent → Bool
  | ServerEvent.roundResults _ _ => true
  | _ => false

/-- Embeds `SocketHandler.handleSubmitAnswer`: forwards to the room's engine;
on success broadcasts `player-answered` and, when every engine player has
`hasAnswered` set, also `round-results` with the full score map and the
current question's correct index. -/
def handleSubmitAnswer (sock : SocketData)
    (gameEngines : List (String × EngineState)) (answerIndex : Int) :
    List ServerEvent × List (String × EngineState) :=
  match sock.currentRoom with
  | none => ([ServerEvent.errorEvent "Not in a room"], gameEngines)
  | some roomCode =>
    match alLookup gameEngines roomCode with
    | none => ([ServerEvent.errorEvent "Game not started"], gameEngines)
    | some engine =>
      match submitAnswer sock.playerId answerIndex engine with
      | none =>
        ([ServerEvent.errorEvent "Failed to submit answer"], gameEngines)
      | some (result, engine') =>
        if result.success then
          let allAnswered := engine'.players.all (fun p => p.hasAnswered)
          let events :=
            if allAnswered then
              [ServerEvent.playerAnswered sock.playerId,
               ServerEvent.roundResults (getScores engine')
                 ((engine'.questions.get? engine'.currentQuestionIndex).map
                   (fun q => q.correctAnswer))]
            else [ServerEvent.playerAnswered sock.playerId]
          (events, alInsert gameEngines roomCode engine')
        else
          ([ServerEvent.errorEvent
             (result.error.getD "Failed to submit answer")],
           alInsert gameEngines roomCode engine')

/-! ## GlobalLeaderboard (server/src/services/GlobalLeaderboard.ts)

The sha256 digest is an explicit `hash : String → String` parameter; the
`Array.prototype.sort` call on the score comparator is embedded as an
insertion sort over the comparator's induced ordering. -/

/-- Leaderboard entry record. -/
structure GlobalLeaderboardEntry where
  playerId : String
  playerName : String
  score : Int
  roomCode : String
  timestamp : Nat
  gameDuration : Option Nat
deriving DecidableEq, Inhabited

/-- Game-definition record. -/
structure GameDefinition where
  gameId : String
  questionIds : List Nat
  questionCount : Nat
  createdAt : Nat
deriving DecidableEq, Inhabited

/-- Per-player score record passed into `submitGameResults`. -/
structure PlayerScore where
  playerId : String
  playerName : String
  score : Int
deriving DecidableEq, Inhabited

/-- Field state of the `GlobalLeaderboard` service (the two in-memory maps;
the debounced file persistence is off the mutation path). -/
structure LBState where
  leaderboards : List (String × List GlobalLeaderboardEntry)
  gameDefinitions : List (String × GameDefinition)
deriving DecidableEq, Inhabited

/-- The string hashed by `generateGameId`:
`questions.map(q => [id, question, correctAnswer] joined by colons).join('|')`. -/
def questionData (questions : List Question) : String :=
  String.intercalate "|"
    (questions.map (fun q =>
      toString q.id ++ ":" ++ q.question ++ ":" ++ toString q.correctAnswer))

/-- Embeds `GlobalLeaderboard.generateGameId` over an explicit digest
function: the hex digest of the question data, truncated to 12 characters,
behind a fixed tag. -/
def generateGameId (hash : String → String) (questions : List Question) :
    String :=
  "game_" ++ (hash (questionData questions)).take 12

/-- Embeds `GlobalLeaderboard.registerGame`: stores the definition only when
the game id is unseen. -/
def registerGame (hash : String → String) (questions : List Question)
    (now : Nat) (st : LBState) : String × LBState :=
  let gameId := generateGameId hash questions
  if (alLookup st.gameDefinitions gameId).isSome then (gameId, st)
  else
    let gameDefinition : GameDefinition :=
      { gameId := gameId
        questionIds := questions.map (fun q => q.id)
        questionCount := questions.length
        createdAt := now }
    let defs' := alInsert st.gameDefinitions gameId gameDefinition
    (gameId, { st with gameDefinitions := defs' })

/-- Ordering induced by the sort comparator of `submitGameResults`:
score descending, then timestamp ascending on ties. -/
def entryLE (a b : GlobalLeaderboardEntry) : Bool :=
  decide (b.score < a.score ∨ (a.score = b.score ∧ a.timestamp ≤ b.timestamp))

/-- Inserts into a list sorted by `le`, keeping existing order among ties. -/
def insertLE {α : Type} (le : α → α → Bool) (a : α) : List α → List α
  | [] => [a]
  | b :: bs => if le a b ∧ ¬ le b a then a :: b :: bs else b :: insertLE le a bs

/-- Insertion sort standing in for `Array.prototype.sort` under a total
comparator. -/
def sortLE {α : Type} (le : α → α → Bool) : List α → List α
  | [] => []
  | a :: as => insertLE le a (sortLE le as)

/-- The entry `submitGameResults` builds for one player score at a given call
timestamp and room code. -/
def mkEntry (roomCode : String) (gameDuration : Option Nat) (now : Nat)
    (p : PlayerScore) : GlobalLeaderboardEntry :=
  { playerId := p.playerId, playerName := p.playerName, score := p.score,
    roomCode := roomCode, timestamp := now, gameDuration := gameDuration }

/-- Embeds `GlobalLeaderboard.submitGameResults`: registers the game, appends
one entry (stamped with the shared call timestamp) per strictly-positive
score, re-sorts the group with the score comparator, and trims it to the top
`MAX_ENTRIES_PER_GAME = 100`. -/
def submitGameResults (hash : String → String) (questions : List Question)
    (roomCode : String) (playerScores : List PlayerScore)
    (gameDuration : Option Nat) (now : Nat) (st : LBState) :
    String × LBState :=
  let r := registerGame hash questions now st
  let gameId := r.1
  let st1 := r.2
  let leaderboard := (alLookup st1.leaderboards gameId).getD []
  let newEntries :=
    (playerScores.filter (fun p => 0 < p.score)).map
      (mkEntry roomCode gameDuration now)
  let sorted := sortLE entryLE (leaderboard ++ newEntries)
  let trimmed := sorted.take 100
  (gameId,
   { st1 with leaderboards := alInsert st1.leaderboards gameId trimmed })

/-- The answer-free content of a question: everything `toClientQuestion`
may depend on. -/
def answerFree (q : Question) :
    Nat × String × List String × Option String :=
  (q.id, q.question, q.options, q.audioUrl)

/-- The identity key `generateGameId` hashes: the `(id, text, correctAnswer)`
tuple of a question. -/
def questionKey (q : Question) : Nat × String × Nat :=
  (q.id, q.question, q.correctAnswer)

/-- Repeated `nextQuestion` calls: `iterNext nows st k` is the engine state
after the first `k` calls, call `k` happening at time `nows k`. -/
def iterNext (nows : Nat → Nat) (st : EngineState) : Nat → EngineState
  | 0 => st
  | k + 1 => (nextQuestion (nows k) (iterNext nows st k)).2

/-! ## Concrete inputs used by witnesses and counterexamples -/

/-- A two-option question whose correct option is 0. -/
def qW1 : Question :=
  { id := 1, question := "Q1", audioUrl := none, options := ["a", "b"],
    correctAnswer := 0 }

/-- A two-option question with an audio url, correct option 1. -/
def qW2 : Question :=
  { id := 2, question := "Q2", audioUrl := some "x.mp3", options := ["c", "d"],
    correctAnswer := 1 }

/-- A connected host player. -/
def aliceW : Player :=
  { id := "A", name := "Alice", score := 0, isConnected := true,
    hasAnswered := false, isHost := true }

/-- A player whose connection has dropped (`isConnected = false`). -/
def bobW : Player :=
  { id := "B", name := "Bob", score := 0, isConnected := false,
    hasAnswered := false, isHost := false }

/-- A player registered under the empty-string id. -/
def ghostW : Player :=
  { id := "", name := "Ghost", score := 0, isConnected := true,
    hasAnswered := false, isHost := false }

/-- A started two-question engine for Alice and the disconnected Bob. -/
def engineW : EngineState :=
  (startGame 7 (newEngine [qW1, qW2] [aliceW, bobW])).2

/-- Alice after answering the first question correctly first. -/
def aliceAnsweredW : Player :=
  { aliceW with hasAnswered := true, score := 150 }

/-- A started engine in which Alice has already answered correctly. -/
def engineAnsweredW : EngineState :=
  { questions := [qW1, qW2]
    players := [aliceAnsweredW, bobW]
    currentQuestionIndex := 0
    gameStarted := true
    gameFinished := false
    gameStartTime := some 7
    gameEndTime := none
    firstCorrectAnswerer := some "A" }

/-- A started one-question engine whose roster contains the empty-id player. -/
def engineGhostW : EngineState :=
  (startGame 7 (newEngine [qW1] [ghostW, aliceW])).2

/-- The result record of Alice's first correct submission. -/
def resultAW : SubmitAnswerResult :=
  { success := true, isCorrect := some true, pointsAwarded := some 150,
    error := none }

/-- The engine state after Alice's first correct submission in `engineW`. -/
def engineW1 : EngineState :=
  ((submitAnswer "A" 0 engineW).getD (resultAW, engineW)).2

/-- Alice's socket, joined to room `ROOM01`. -/
def sockW : SocketData :=
  { playerId := "A", playerName := "Alice", currentRoom := some "ROOM01",
    inLobby := false }

/-- Bob's socket, joined to room `ROOM01`. -/
def sockBobW : SocketData :=
  { playerId := "B", playerName := "Bob", currentRoom := some "ROOM01",
    inLobby := false }

/-- A room-code attempt drawing index 0 six times (code `AAAAAA`). -/
def attA : Fin 6 → Fin 36 :=
  fun _ => 0

/-- A room-code attempt drawing the lookalike characters `O`, `I`, `0`, `1`,
`L` (code `OI01L0`). -/
def attAmb : Fin 6 → Fin 36 :=
  fun i => ([(14 : Fin 36), 8, 26, 27, 11, 26].getD i.val 0)

/-- The room `createRoom` builds for creator `p1` under code `AAAAAA`. -/
def roomW1 : Room :=
  { code := "AAAAAA"
    players := [{ id := "p1", name := "Alice", score := 0, isConnected := true,
                  hasAnswered := false, isHost := true }]
    state := RoomState.waiting
    currentQuestionIndex := 0
    maxPlayers := 8
    createdAt := 0 }

/-- The manager state after `p1` creates room `AAAAAA`. -/
def rmW1 : RMState :=
  { rooms := [("AAAAAA", roomW1)], playerRoomMap := [("p1", "AAAAAA")] }

/-- The manager state after `p2` additionally joins room `AAAAAA`. -/
def rmW2 : RMState :=
  (joinRoom "AAAAAA" "p2" "Bob" rmW1).2

/-- Player scores submitted in the leaderboard witness: one zero score among
two positive ones. -/
def psW : List PlayerScore :=
  [{ playerId := "A", playerName := "Alice", score := 450 },
   { playerId := "B", playerName := "Bob", score := 0 },
   { playerId := "C", playerName := "Cy", score := 100 }]

/-- A question list equal to `[qW1, qW2]` on `(id, text, correctAnswer)` but
different in options and audio url. -/
def qs2W : List Question :=
  [{ qW1 with options := ["z"], audioUrl := some "other.mp3" },
   { qW2 with options := [], audioUrl := none }]

/-! ## Association-list lemmas -/

theorem alLookup_nil {α : Type} (k : String) :
    alLookup ([] : List (String × α)) k = none := rfl

theorem alLookup_cons {α : Type} (kv : String × α) (l : List (String × α))
    (k : String) :
    alLookup (kv :: l) k = if kv.1 = k then some kv.2 else alLookup l k := by
  by_cases h : kv.1 = k <;> simp [alLookup, List.find?_cons, h]

theorem alLookup_mem {α : Type} {l : List (String × α)} {k : String} {v : α}
    (h : alLookup l k = some v) : (k, v) ∈ l := by
  induction l with
  | nil => simp [alLookup] at h
  | cons kv rest ih =>
    rw [alLookup_cons] at h
    by_cases hk : kv.1 = k
    · rw [if_pos hk] at h
      have : kv = (k, v) := by
        obtain ⟨a, b⟩ := kv
        simp only at hk
        simp only [Option.some.injEq] at h
        rw [hk, h]

      exact this ▸ List.mem_cons_self kv rest
    · rw [if_neg hk] at h
      exact List.mem_cons_of_mem _ (ih h)

theorem alLookup_map_replace_self {α : Type} (l : List (String × α))
    (k : String) (v w : α) (h : alLookup l k = some w) :
    alLookup (l.map (fun kv => if kv.1 = k then (k, v) else kv)) k = some v := by
  induction l with
  | nil => simp [alLookup] at h
  | cons kv rest ih =>
    rw [alLookup_cons] at h
    by_cases hk : kv.1 = k
    · simp [List.map_cons, hk, alLookup_cons]
    · rw [if_neg hk] at h
      simp only [List.map_cons, if_neg hk, alLookup_cons, if_neg hk]
      exact ih h

theorem alLookup_map_replace_ne {α : Type} (l : List (String × α))
    (k k' : String) (v : α) (h : k' ≠ k) :
    alLookup (l.map (fun kv => if kv.1 = k then (k, v) else kv)) k' =
      alLookup l k' := by
  induction l with
  | nil => rfl
  | cons kv rest ih =>
    by_cases hk : kv.1 = k
    · simp only [List.map_cons, if_pos hk, alLookup_cons]
      rw [if_neg (fun hc => h hc.symm), if_neg (fun hc => h (hk ▸ hc).symm)]
      exact ih
    · simp only [List.map_cons, if_neg hk, alLookup_cons]
      exact if_congr Iff.rfl rfl ih

theorem alLookup_append_single_self {α : Type} (l : List (String × α))
    (k : String) (v : α) (h : alLookup l k = none) :
    alLookup (l ++ [(k, v)]) k = some v := by
  induction l with
  | nil => simp [alLookup, List.find?_cons]
  | cons kv rest ih =>
    rw [alLookup_cons] at h
    by_cases hk : kv.1 = k
    · simp [hk] at h
    · rw [if_neg hk] at h
      simp only [List.cons_append, alLookup_cons, if_neg hk]
      exact ih h

theorem alLookup_append_single_ne {α : Type} (l : List (String × α))
    (k k' : String) (v : α) (h : k' ≠ k) :
    alLookup (l ++ [(k, v)]) k' = alLookup l k' := by
  induction l with
  | nil => simp [alLookup, List.find?_cons, Ne.symm h]
  | cons kv rest ih =>
    simp only [List.cons_append, alLookup_cons]
    exact if_congr Iff.rfl rfl ih

theorem alLookup_alInsert_self {α : Type} (l : List (String × α)) (k : String)
    (v : α) : alLookup (alInsert l k v) k = some v := by
  unfold alInsert
  by_cases h : (alLookup l k).isSome
  · rcases Option.isSome_iff_exists.mp h with ⟨w, hw⟩
    rw [if_pos h]
    exact alLookup_map_replace_self l k v w hw
  · rw [if_neg h]
    rw [Option.not_isSome_iff_eq_none] at h
    exact alLookup_append_single_self l k v h

theorem alLookup_alInsert_ne {α : Type} (l : List (String × α))
    (k k' : String) (v : α) (h : k' ≠ k) :
    alLookup (alInsert l k v) k' = alLookup l k' := by
  unfold alInsert
  by_cases hs : (alLookup l k).isSome
  · rw [if_pos hs]
    exact alLookup_map_replace_ne l k k' v h
  · rw [if_neg hs]
    exact alLookup_append_single_ne l k k' v h

theorem alLookup_alErase_self {α : Type} (l : List (String × α)) (k : String) :
    alLookup (alErase l k) k = none := by
  induction l with
  | nil => rfl
  | cons kv rest ih =>
    by_cases hk : kv.1 = k
    · simpa [alErase, List.filter_cons, hk] using ih
    · simpa [alErase, List.filter_cons, hk, alLookup_cons, if_neg hk] using ih

theorem mem_alInsert {α : Type} {l : List (String × α)} {k : String} {v : α}
    {kv : String × α} (h : kv ∈ alInsert l k v) : kv = (k, v) ∨ kv ∈ l := by
  unfold alInsert at h
  by_cases hs : (alLookup l k).isSome
  · rw [if_pos hs] at h
    rcases List.mem_map.mp h with ⟨kv', hmem, heq⟩
    by_cases hk : kv'.1 = k
    · left
      rw [if_pos hk] at heq
      exact heq.symm
    · right
      rw [if_neg hk] at heq
      exact heq ▸ hmem
  · rw [if_neg hs] at h
    rcases List.mem_append.mp h with h1 | h1
    · exact Or.inr h1
    · exact Or.inl (List.mem_singleton.mp h1)

theorem mem_alErase {α : Type} {l : List (String × α)} {k : String}
    {kv : String × α} (h : kv ∈ alErase l k) : kv ∈ l :=
  List.mem_of_mem_filter h

/-! ## Player-list helper lemmas -/

theorem updateFirstPlayer_find? (f : Player → Player) (pid : String)
    (l : List Player) (hid : ∀ p, (f p).id = p.id) :
    (updateFirstPlayer f pid l).find? (fun p => p.id = pid) =
      ((l.find? (fun p => p.id = pid)).map f) := by
  induction l with
  | nil => rfl
  | cons p ps ih =>
    by_cases h : p.id = pid
    · simp [updateFirstPlayer, h, List.find?_cons, hid p]
    · simp [updateFirstPlayer, h, List.find?_cons, ih]

theorem updateFirstPlayer_mem_of_ne (f : Player → Player) (pid : String)
    (l : List Player) (r : Player) (hr : r ∈ l) (hne : r.id ≠ pid) :
    r ∈ updateFirstPlayer f pid l := by
  induction l with
  | nil => exact absurd hr (List.not_mem_nil r)
  | cons p ps ih =>
    rcases List.mem_cons.mp hr with h | h
    · subst h
      simp [updateFirstPlayer, if_neg hne]
    · by_cases hp : p.id = pid
      · simp only [updateFirstPlayer, if_pos hp]
        exact List.mem_cons_of_mem _ h
      · simp only [updateFirstPlayer, if_neg hp]
        exact List.mem_cons_of_mem _ (ih h)

theorem mem_updateFirstPlayer_of_ne (f : Player → Player) (pid : String)
    (l : List Player) (hid : ∀ p, (f p).id = p.id) (r : Player)
    (hr : r ∈ updateFirstPlayer f pid l) (hne : r.id ≠ pid) : r ∈ l := by
  induction l with
  | nil => simp [updateFirstPlayer] at hr
  | cons p ps ih =>
    by_cases hp : p.id = pid
    · simp only [updateFirstPlayer, if_pos hp] at hr
      rcases List.mem_cons.mp hr with h | h
      · exact absurd (h ▸ hne) (by rw [hid p]; exact fun hc => hc hp)
      · exact List.mem_cons_of_mem _ h
    · simp only [updateFirstPlayer, if_neg hp] at hr
      rcases List.mem_cons.mp hr with h | h
      · exact h ▸ List.mem_cons_self p ps
      · exact List.mem_cons_of_mem _ (ih h)

theorem updateFirstPlayer_scores (f : Player → Player) (pid : String)
    (l : List Player) (h : ∀ p, (f p).id = p.id ∧ (f p).score = p.score) :
    (updateFirstPlayer f pid l).map (fun p => (p.id, p.score)) =
      l.map (fun p => (p.id, p.score)) := by
  induction l with
  | nil => rfl
  | cons p ps ih =>
    by_cases hp : p.id = pid
    · simp [updateFirstPlayer, hp, (h p).1, (h p).2]
    · simp [updateFirstPlayer, hp, ih]

theorem removeFirstPlayer_perm (pid : String) (l : List Player) (p : Player)
    (rest : List Player) (h : removeFirstPlayer pid l = some (p, rest)) :
    l.Perm (p :: rest) := by
  induction l generalizing rest with
  | nil => simp [removeFirstPlayer] at h
  | cons b bs ih =>
    by_cases hb : b.id = pid
    · simp only [removeFirstPlayer, if_pos hb, Option.some.injEq] at h
      rw [Prod.mk.injEq] at h
      obtain ⟨hp, hrest⟩ := h
      subst hp
      subst hrest
      exact List.Perm.refl _
    · simp only [removeFirstPlayer, if_neg hb] at h
      rcases Option.map_eq_some'.mp h with ⟨⟨q, qs⟩, hrec, heq⟩
      simp only [Prod.mk.injEq] at heq
      obtain ⟨hq, hrest⟩ := heq
      have hrec' : removeFirstPlayer pid bs = some (p, qs) := by rw [← hq]; exact hrec
      rw [← hrest]
      exact ((ih qs hrec').cons b).trans (List.Perm.swap p b qs)

/-! ## Insertion-sort lemmas -/

theorem mem_insertLE {α : Type} (le : α → α → Bool) (a x : α) (l : List α)
    (h : x ∈ insertLE le a l) : x = a ∨ x ∈ l := by
  induction l with
  | nil => simp only [insertLE, List.mem_singleton] at h; exact Or.inl h
  | cons b bs ih =>
    by_cases hc : le a b = true ∧ ¬ le b a = true
    · rw [insertLE, if_pos hc] at h
      rcases List.mem_cons.mp h with h1 | h1
      · exact Or.inl h1
      · exact Or.inr h1
    · rw [insertLE, if_neg hc] at h
      rcases List.mem_cons.mp h with h1 | h1
      · exact Or.inr (h1 ▸ List.mem_cons_self b bs)
      · rcases ih h1 with h2 | h2
        · exact Or.inl h2
        · exact Or.inr (List.mem_cons_of_mem _ h2)

theorem pairwise_insertLE {α : Type} (le : α → α → Bool)
    (htot : ∀ a b, le a b = true ∨ le b a = true)
    (htrans : ∀ a b c, le a b = true → le b c = true → le a c = true)
    (a : α) (l : List α) (h : l.Pairwise (fun x y => le x y = true)) :
    (insertLE le a l).Pairwise (fun x y => le x y = true) := by
  induction l with
  | nil => simp [insertLE]
  | cons b bs ih =>
    rcases List.pairwise_cons.mp h with ⟨hb, hbs⟩
    by_cases hc : le a b = true ∧ ¬ le b a = true
    · rw [insertLE, if_pos hc]
      refine List.pairwise_cons.mpr ⟨?_, h⟩
      intro x hx
      rcases List.mem_cons.mp hx with h1 | h1
      · exact h1 ▸ hc.1
      · exact htrans a b x hc.1 (hb x h1)
    · rw [insertLE, if_neg hc]
      refine List.pairwise_cons.mpr ⟨?_, ih hbs⟩
      intro x hx
      rcases mem_insertLE le a x bs hx with h1 | h1
      · rw [h1]
        rcases htot a b with h2 | h2
        · by_contra hba
          exact hc ⟨h2, hba⟩
        · exact h2
      · exact hb x h1

theorem pairwise_sortLE {α : Type} (le : α → α → Bool)
    (htot : ∀ a b, le a b = true ∨ le b a = true)
    (htrans : ∀ a b c, le a b = true → le b c = true → le a c = true)
    (l : List α) : (sortLE le l).Pairwise (fun x y => le x y = true) := by
  induction l with
  | nil => simp [sortLE]
  | cons a as ih => exact pairwise_insertLE le htot htrans a _ ih

theorem entryLE_total (a b : GlobalLeaderboardEntry) :
    entryLE a b = true ∨ entryLE b a = true := by
  simp only [entryLE, decide_eq_true_eq]
  omega

theorem entryLE_trans (a b c : GlobalLeaderboardEntry)
    (h1 : entryLE a b = true) (h2 : entryLE b c = true) :
    entryLE a c = true := by
  simp only [entryLE, decide_eq_true_eq] at h1 h2 ⊢
  omega

/-! ## RoomManager directory invariant -/

/-- Well-formedness of one room: a non-empty player list containing exactly
one host. -/
def roomWF (room : Room) : Prop :=
  room.players ≠ [] ∧ room.players.countP (fun p => p.isHost) = 1

/-- Well-formedness of the whole directory. -/
def rmWF (st : RMState) : Prop :=
  ∀ kv ∈ st.rooms, roomWF kv.2

theorem rmWF_createRoom (st : RMState) (attempts : List (Fin 6 → Fin 36))
    (playerId playerName : String) (now : Nat) (room : Room) (st' : RMState)
    (hwf : rmWF st)
    (h : createRoom attempts playerId playerName now st = some (room, st')) :
    rmWF st' := by
  unfold createRoom at h
  rcases Option.map_eq_some'.mp h with ⟨code, hcode, heq⟩
  simp only [Prod.mk.injEq] at heq
  obtain ⟨hroom, hst⟩ := heq
  intro kv hkv
  rw [← hst] at hkv
  simp only at hkv
  rcases mem_alInsert hkv with h1 | h1
  · subst h1
    constructor
    · simp
    · simp [List.countP_cons]
  · exact hwf kv h1

theorem rmWF_joinRoom (st : RMState) (roomCode playerId playerName : String)
    (hwf : rmWF st) : rmWF (joinRoom roomCode playerId playerName st).2 := by
  unfold joinRoom
  cases hlook : alLookup st.rooms roomCode with
  | none => exact hwf
  | some room =>
    dsimp only
    by_cases h1 : room.maxPlayers ≤ room.players.length
    · simp only [if_pos h1]
      exact hwf
    · rw [if_neg h1]
      by_cases h2 : room.players.any (fun p => p.id = playerId) = true
      · simp only [if_pos h2]
        exact hwf
      · simp only [if_neg h2]
        by_cases h3 : room.state ≠ RoomState.waiting
        · simp only [if_pos h3]
          exact hwf
        · simp only [if_neg h3]
          intro kv hkv
          simp only at hkv
          rcases mem_alInsert hkv with h4 | h4
          · subst h4
            obtain ⟨hne, hcount⟩ := hwf (roomCode, room) (alLookup_mem hlook)
            constructor
            · simp
            · simp only [List.countP_append, List.countP_cons, List.countP_nil]
              simpa using hcount
          · exact hwf kv h4

theorem rmWF_leaveRoom (st : RMState) (roomCode playerId : String)
    (hwf : rmWF st) : rmWF (leaveRoom roomCode playerId st).2 := by
  unfold leaveRoom
  cases hlook : alLookup st.rooms roomCode with
  | none => exact hwf
  | some room =>
    dsimp only
    cases hrem : removeFirstPlayer playerId room.players with
    | none => exact hwf
    | some pr =>
      obtain ⟨leavingPlayer, rest⟩ := pr
      dsimp only
      obtain ⟨hne, hcount⟩ := hwf (roomCode, room) (alLookup_mem hlook)
      simp only at hne hcount
      have hperm := removeFirstPlayer_perm playerId room.players leavingPlayer rest hrem
      have hsum : (leavingPlayer :: rest).countP (fun p => p.isHost) = 1 := by
        rw [← hperm.countP_eq]
        exact hcount
      rw [List.countP_cons] at hsum
      by_cases hpromote : leavingPlayer.isHost = true ∧ rest.length ≠ 0
      · simp only [if_pos hpromote]
        cases rest with
        | nil => exact absurd rfl hpromote.2
        | cons q qs =>
          rw [hpromote.1, List.countP_cons] at hsum
          have hq0' : qs.countP (fun p => p.isHost) = 0 := by
            cases hq : q.isHost
            · simp [hq] at hsum
              exact List.countP_eq_zero.mpr (by simpa using hsum)
            · simp [hq] at hsum
          rw [if_neg (by simp : ¬ (({ q with isHost := true } :: qs).length = 0))]
          intro kv hkv
          simp only at hkv
          rcases mem_alInsert hkv with h4 | h4
          · subst h4
            constructor
            · simp
            · simp [List.countP_cons, hq0']
          · exact hwf kv h4
      · simp only [if_neg hpromote]
        by_cases hempty : rest.length = 0
        · simp only [if_pos hempty]
          intro kv hkv
          exact hwf kv (mem_alErase hkv)
        · simp only [if_neg hempty]
          have hhost : leavingPlayer.isHost = false := by
            by_cases hh : leavingPlayer.isHost = true
            · exact absurd ⟨hh, hempty⟩ hpromote
            · simpa using hh
          have hrest1 : rest.countP (fun p => p.isHost) = 1 := by
            simp [hhost] at hsum
            omega
          intro kv hkv
          simp only at hkv
          rcases mem_alInsert hkv with h4 | h4
          · subst h4
            constructor
            · simp only
              intro hnil
              rw [hnil] at hempty
              exact hempty rfl
            · simpa using hrest1
          · exact hwf kv h4

theorem reach_rmWF (st : RMState) (h : Reach st) : rmWF st := by
  induction h with
  | init => intro kv hkv; simp at hkv
  | create st attempts playerId playerName now room st' _ heq ih =>
    exact rmWF_createRoom st attempts playerId playerName now room st' ih heq
  | join st roomCode playerId playerName _ ih =>
    exact rmWF_joinRoom st roomCode playerId playerName ih
  | leave st roomCode playerId _ ih =>
    exact rmWF_leaveRoom st roomCode playerId ih

/-! ## Leaderboard identity key lemmas -/

theorem questionData_eq_of_keys (qs1 qs2 : List Question)
    (h : qs1.map questionKey = qs2.map questionKey) :
    questionData qs1 = questionData qs2 := by
  unfold questionData
  have e : ∀ qs : List Question,
      qs.map (fun q =>
        toString q.id ++ ":" ++ q.question ++ ":" ++ toString q.correctAnswer) =
        (qs.map questionKey).map (fun k =>
          toString k.1 ++ ":" ++ k.2.1 ++ ":" ++ toString k.2.2) := by
    intro qs
    rw [List.map_map]
    rfl
  rw [e, e, h]

/-! ## Room-code generation lemmas -/

theorem getD_mem_codeAlphabet (n : Nat) : codeAlphabet.getD n 'A' ∈ codeAlphabet := by
  rw [List.getD_eq_getElem?_getD]
  cases hg : codeAlphabet[n]? with
  | none =>
    simp only [hg, Option.getD_none]
    decide
  | some c =>
    simp only [hg, Option.getD_some]
    exact List.getElem?_mem hg

theorem makeCode_length (a : Fin 6 → Fin 36) : (makeCode a).length = 6 := by
  simp [makeCode, String.length]

theorem makeCode_mem_alphabet (a : Fin 6 → Fin 36) (c : Char)
    (hc : c ∈ (makeCode a).toList) : c ∈ codeAlphabet := by
  simp only [makeCode, String.toList, List.mem_map] at hc
  rcases hc with ⟨i, _, hi⟩
  exact hi ▸ getD_mem_codeAlphabet (a i).val

/-! ## Claim theorems -/

/-- C8: `generateGameId` is a deterministic pure function of the ordered
question list: any two question lists with pairwise equal
`(id, text, correctOptionIndex)` tuples in the same order hash to
byte-identical game ids, whichever digest function is plugged in. -/
theorem generateGameId_deterministic (hash : String → String)
    (qs1 qs2 : List Question)
    (h : qs1.map questionKey = qs2.map questionKey) :
    generateGameId hash qs1 = generateGameId hash qs2 := by
  unfold generateGameId
  rw [questionData_eq_of_keys qs1 qs2 h]

/-- Witness for C8 at two concrete question lists that differ in options and
audio url but agree on the hashed tuples. -/
theorem generateGameId_deterministic_witness :
    [qW1, qW2].map questionKey = qs2W.map questionKey ∧
      generateGameId (fun s => s) [qW1, qW2] = generateGameId (fun s => s) qs2W :=
  ⟨by decide, generateGameId_deterministic (fun s => s) [qW1, qW2] qs2W (by decide)⟩

/-- C9 (amended): every code `generateRoomCode` returns is a 6-character
string over the full uppercase alphanumeric alphabet `A`-`Z`, `0`-`9` and is
distinct from the code of every room active at the moment of generation. -/
theorem generateRoomCode_spec (rooms : List (String × Room))
    (attempts : List (Fin 6 → Fin 36)) (code : String)
    (h : generateRoomCode rooms attempts = some code) :
    code.length = 6 ∧ (∀ c ∈ code.toList, c ∈ codeAlphabet) ∧
      alLookup rooms code = none := by
  induction attempts with
  | nil => simp [generateRoomCode] at h
  | cons a rest ih =>
    rw [generateRoomCode] at h
    by_cases hc : (alLookup rooms (makeCode a)).isSome
    · rw [if_pos hc] at h
      exact ih h
    · rw [if_neg hc] at h
      have hcode : makeCode a = code := by
        simpa using h
      subst hcode
      exact ⟨makeCode_length a, fun c hm => makeCode_mem_alphabet a c hm,
        Option.not_isSome_iff_eq_none.mp hc⟩

/-- Witness for C9 at a concrete draw against a non-empty directory. -/
theorem generateRoomCode_spec_witness :
    generateRoomCode [("BBBBBB", roomW1)] [attA] = some "AAAAAA" ∧
      ("AAAAAA".length = 6 ∧ (∀ c ∈ "AAAAAA".toList, c ∈ codeAlphabet) ∧
        alLookup [("BBBBBB", roomW1)] "AAAAAA" = none) :=
  ⟨by decide, generateRoomCode_spec [("BBBBBB", roomW1)] [attA] "AAAAAA" (by decide)⟩

/-- C9 counterexample to the claimed unambiguous alphabet: the generator can
output the code `OI01L0`, which contains the lookalike characters `O` versus
`0` and `I` versus `1`, so the alphabet is the full ambiguous alphanumeric
set, not an unambiguity-filtered one. -/
theorem roomCode_ambiguous_counterexample :
    generateRoomCode [] [attAmb] = some "OI01L0" ∧
      'O' ∈ "OI01L0".toList ∧ '0' ∈ "OI01L0".toList ∧
      'I' ∈ "OI01L0".toList ∧ '1' ∈ "OI01L0".toList := by
  decide

/-- Shared shape of a successful `submitAnswer` call: all five guards pass,
the first matching player is marked answered (and paid on a correct answer),
and the first-correct slot is claimed when it is JavaScript-falsy. -/
theorem submitAnswer_success (st : EngineState) (pid : String) (ai : Int)
    (p : Player) (q : Question)
    (hs : st.gameStarted = true) (hf : st.gameFinished = false)
    (hp : st.players.find? (fun r => r.id = pid) = some p)
    (ha : p.hasAnswered = false)
    (hq : st.questions.get? st.currentQuestionIndex = some q)
    (h0 : 0 ≤ ai) (hlt : ai < (q.options.length : Int)) :
    submitAnswer pid ai st =
      some ({ success := true,
              isCorrect := some (decide (ai = (q.correctAnswer : Int))),
              pointsAwarded := some (if ai = (q.correctAnswer : Int) then
                (if slotFalsy st.firstCorrectAnswerer then 150 else 100) else 0),
              error := none },
            { st with
                players := updateFirstPlayer (fun r =>
                  if ai = (q.correctAnswer : Int) then
                    { r with hasAnswered := true,
                             score := r.score +
                               (if ai = (q.correctAnswer : Int) then
                                 (if slotFalsy st.firstCorrectAnswerer then 150
                                  else 100) else 0) }
                  else { r with hasAnswered := true }) pid st.players
                firstCorrectAnswerer :=
                  if ai = (q.correctAnswer : Int) ∧
                      slotFalsy st.firstCorrectAnswerer then some pid
                  else st.firstCorrectAnswerer }) := by
  unfold submitAnswer
  rw [if_neg (by simp [hs] : ¬ ¬ st.gameStarted = true)]
  rw [if_neg (by simp [hf] : ¬ st.gameFinished = true)]
  rw [hp]
  dsimp only
  rw [if_neg (by simp [ha] : ¬ p.hasAnswered = true)]
  rw [hq]
  dsimp only
  rw [if_neg (by omega : ¬ (ai < 0 ∨ (q.options.length : Int) ≤ ai))]

/-- C3: a second `submitAnswer` from a player who has already answered the
current question of an active game fails with the `AlreadyAnswered` error and
returns the engine state completely unchanged, so no score moves. -/
theorem submitAnswer_already_answered (st : EngineState) (pid : String)
    (answerIndex : Int) (p : Player)
    (hs : st.gameStarted = true) (hf : st.gameFinished = false)
    (hp : st.players.find? (fun r => r.id = pid) = some p)
    (ha : p.hasAnswered = true) :
    submitAnswer pid answerIndex st =
      some ({ success := false, isCorrect := none, pointsAwarded := none,
              error := some "Player already answered" }, st) := by
  unfold submitAnswer
  rw [if_neg (by simp [hs] : ¬ ¬ st.gameStarted = true)]
  rw [if_neg (by simp [hf] : ¬ st.gameFinished = true)]
  rw [hp]
  dsimp only
  rw [if_pos ha]

/-- Witness for C3: Alice, who already answered question 0, retries and is
rejected with the engine state intact. -/
theorem submitAnswer_already_answered_witness :
    (engineAnsweredW.gameStarted = true ∧ engineAnsweredW.gameFinished = false ∧
      engineAnsweredW.players.find? (fun r => r.id = "A") = some aliceAnsweredW ∧
      aliceAnsweredW.hasAnswered = true) ∧
    submitAnswer "A" 1 engineAnsweredW =
      some ({ success := false, isCorrect := none, pointsAwarded := none,
              error := some "Player already answered" }, engineAnsweredW) :=
  ⟨⟨by decide, by decide, by decide, by decide⟩,
   submitAnswer_already_answered engineAnsweredW "A" 1 aliceAnsweredW
     (by decide) (by decide) (by decide) (by decide)⟩

/-- C10: an in-range incorrect answer in an active game succeeds with
`isCorrect = false` and zero points, marks the answering player as having
answered, and leaves every score and the first-correct slot unchanged. -/
theorem submitAnswer_incorrect_spec (st : EngineState) (pid : String)
    (ai : Int) (p : Player) (q : Question)
    (hs : st.gameStarted = true) (hf : st.gameFinished = false)
    (hp : st.players.find? (fun r => r.id = pid) = some p)
    (ha : p.hasAnswered = false)
    (hq : st.questions.get? st.currentQuestionIndex = some q)
    (h0 : 0 ≤ ai) (hlt : ai < (q.options.length : Int))
    (hw : ai ≠ (q.correctAnswer : Int)) :
    ∃ st', submitAnswer pid ai st =
        some ({ success := true, isCorrect := some false,
                pointsAwarded := some 0, error := none }, st') ∧
      st'.players.find? (fun r => r.id = pid) =
        some { p with hasAnswered := true } ∧
      getScores st' = getScores st ∧
      st'.firstCorrectAnswerer = st.firstCorrectAnswerer ∧
      st'.questions = st.questions ∧
      st'.currentQuestionIndex = st.currentQuestionIndex ∧
      st'.gameStarted = true ∧ st'.gameFinished = false := by
  have h := submitAnswer_success st pid ai p q hs hf hp ha hq h0 hlt
  simp only [hw, if_false, decide_False, false_and] at h
  refine ⟨_, h, ?_, ?_, rfl, rfl, rfl, hs, hf⟩
  · dsimp only
    rw [updateFirstPlayer_find? (fun r => { r with hasAnswered := true }) pid
      st.players (fun r => rfl), hp]
    rfl
  · unfold getScores
    dsimp only
    exact updateFirstPlayer_scores (fun r => { r with hasAnswered := true })
      pid st.players (fun r => ⟨rfl, rfl⟩)

/-- Witness for C10: Alice submits the wrong option 1 on question 0 and gets
zero points while becoming marked as answered. -/
theorem submitAnswer_incorrect_spec_witness :
    (engineW.gameStarted = true ∧ engineW.gameFinished = false ∧
      engineW.players.find? (fun r => r.id = "A") = some aliceW ∧
      aliceW.hasAnswered = false ∧
      engineW.questions.get? engineW.currentQuestionIndex = some qW1 ∧
      (0 : Int) ≤ 1 ∧ (1 : Int) < (qW1.options.length : Int) ∧
      (1 : Int) ≠ (qW1.correctAnswer : Int)) ∧
    (∃ st', submitAnswer "A" 1 engineW =
        some ({ success := true, isCorrect := some false,
                pointsAwarded := some 0, error := none }, st') ∧
      st'.players.find? (fun r => r.id = "A") =
        some { aliceW with hasAnswered := true } ∧
      getScores st' = getScores engineW ∧
      st'.firstCorrectAnswerer = engineW.firstCorrectAnswerer ∧
      st'.questions = engineW.questions ∧
      st'.currentQuestionIndex = engineW.currentQuestionIndex ∧
      st'.gameStarted = true ∧ st'.gameFinished = false) :=
  ⟨⟨by decide, by decide, by decide, by decide, by decide, by decide,
    by decide, by decide⟩,
   submitAnswer_incorrect_spec engineW "A" 1 aliceW qW1 (by decide) (by decide)
     (by decide) (by decide) (by decide) (by decide) (by decide) (by decide)⟩

/-- C2 (amended): a correct in-range answer in an active game awards
150 points when the first-correct slot is JavaScript-falsy (null or the
empty-string id) and 100 otherwise; the award lands on exactly the answering
player, other players are untouched, and a falsy slot is claimed by the
answerer (so with non-empty player ids every later correct answer on the
question awards 100). -/
theorem submitAnswer_first_correct_bonus (st : EngineState) (pid : String)
    (ai : Int) (p : Player) (q : Question)
    (hs : st.gameStarted = true) (hf : st.gameFinished = false)
    (hp : st.players.find? (fun r => r.id = pid) = some p)
    (ha : p.hasAnswered = false)
    (hq : st.questions.get? st.currentQuestionIndex = some q)
    (h0 : 0 ≤ ai) (hlt : ai < (q.options.length : Int))
    (hc : ai = (q.correctAnswer : Int)) :
    ∃ st', submitAnswer pid ai st =
        some ({ success := true, isCorrect := some true,
                pointsAwarded := some (if slotFalsy st.firstCorrectAnswerer
                  then 150 else 100), error := none }, st') ∧
      st'.players.find? (fun r => r.id = pid) =
        some { p with hasAnswered := true,
                      score := p.score + (if slotFalsy st.firstCorrectAnswerer
                        then 150 else 100) } ∧
      (∀ r ∈ st.players, r.id ≠ pid → r ∈ st'.players) ∧
      (∀ r ∈ st'.players, r.id ≠ pid → r ∈ st.players) ∧
      st'.firstCorrectAnswerer =
        (if slotFalsy st.firstCorrectAnswerer then some pid
         else st.firstCorrectAnswerer) := by
  subst hc
  have h := submitAnswer_success st pid (q.correctAnswer : Int) p q hs hf hp
    ha hq h0 hlt
  simp only [eq_self_iff_true, if_true, true_and, decide_True] at h
  refine ⟨_, h, ?_, ?_, ?_, rfl⟩
  · dsimp only
    rw [updateFirstPlayer_find? (fun r =>
      { r with hasAnswered := true,
               score := r.score + (if slotFalsy st.firstCorrectAnswerer
                 then 150 else 100) }) pid st.players (fun r => rfl), hp]
    rfl
  · intro r hr hne
    dsimp only
    exact updateFirstPlayer_mem_of_ne _ pid st.players r hr hne
  · intro r hr hne
    dsimp only at hr
    exact mem_updateFirstPlayer_of_ne (fun r =>
      { r with hasAnswered := true,
               score := r.score + (if slotFalsy st.firstCorrectAnswerer
                 then 150 else 100) }) pid st.players (fun r => rfl) r hr hne

/-- Witness for C2: Alice is first to answer question 0 correctly in a fresh
game (empty slot) and receives 150 points; the slot is claimed by `A`. -/
theorem submitAnswer_first_correct_bonus_witness :
    (engineW.gameStarted = true ∧ engineW.gameFinished = false ∧
      engineW.players.find? (fun r => r.id = "A") = some aliceW ∧
      aliceW.hasAnswered = false ∧
      engineW.questions.get? engineW.currentQuestionIndex = some qW1 ∧
      (0 : Int) ≤ 0 ∧ (0 : Int) < (qW1.options.length : Int) ∧
      (0 : Int) = (qW1.correctAnswer : Int)) ∧
    (∃ st', submitAnswer "A" 0 engineW =
        some ({ success := true, isCorrect := some true,
                pointsAwarded := some 150, error := none }, st') ∧
      st'.players.find? (fun r => r.id = "A") =
        some { aliceW with hasAnswered := true, score := 150 } ∧
      (∀ r ∈ engineW.players, r.id ≠ "A" → r ∈ st'.players) ∧
      (∀ r ∈ st'.players, r.id ≠ "A" → r ∈ engineW.players) ∧
      st'.firstCorrectAnswerer = some "A") :=
  ⟨⟨by decide, by decide, by decide, by decide, by decide, by decide,
    by decide, by decide⟩,
   submitAnswer_first_correct_bonus engineW "A" 0 aliceW qW1 (by decide)
     (by decide) (by decide) (by decide) (by decide) (by decide) (by decide)
     (by decide)⟩

/-- C2 counterexample: with the empty string as a player id, the first
correct answer (by the empty-id player) earns 150, yet the next correct
answer by Alice also earns 150 instead of the claimed 100, because the slot
holding `""` is still JavaScript-falsy. -/
theorem submitAnswer_empty_id_counterexample :
    ((submitAnswer "" 0 engineGhostW).bind (fun r1 =>
        (submitAnswer "A" 0 r1.2).map (fun r2 =>
          (r1.1.pointsAwarded, r2.1.pointsAwarded)))) =
      some (some 150, some 150) ∧
    (some 150 : Option Nat) ≠ some 100 := by
  exact ⟨by decide, by decide⟩

/-- C1 counterexample: connected Alice submits a successful answer while the
disconnected Bob has not answered; afterwards every currently-connected room
player has answered, yet the handler emits only `player-answered` and no
`round-results` broadcast, because the barrier counts disconnected players
too. -/
theorem handleSubmitAnswer_barrier_counterexample :
    (handleSubmitAnswer sockW [("ROOM01", engineW)] 0).1 =
      [ServerEvent.playerAnswered "A"] ∧
    ((alLookup (handleSubmitAnswer sockW [("ROOM01", engineW)] 0).2
        "ROOM01").map (fun e =>
          e.players.all (fun p => !p.isConnected || p.hasAnswered))) =
      some true := by
  exact ⟨by decide, by decide⟩

/-- C1 (amended): after a successful forwarded `submitAnswer`, round results
(the full score map plus the correct option index) are broadcast if and only
if every player in the engine's roster — connected or not — has
`hasAnswered = true`; otherwise only `player-answered` is emitted. -/
theorem handleSubmitAnswer_barrier_allPlayers (sock : SocketData)
    (gameEngines : List (String × EngineState)) (ai : Int)
    (roomCode : String) (engine : EngineState)
    (result : SubmitAnswerResult) (engine' : EngineState)
    (h1 : sock.currentRoom = some roomCode)
    (h2 : alLookup gameEngines roomCode = some engine)
    (h3 : submitAnswer sock.playerId ai engine = some (result, engine'))
    (h4 : result.success = true) :
    ((handleSubmitAnswer sock gameEngines ai).1 =
      (if engine'.players.all (fun p => p.hasAnswered) then
        [ServerEvent.playerAnswered sock.playerId,
         ServerEvent.roundResults (getScores engine')
           ((engine'.questions.get? engine'.currentQuestionIndex).map
             (fun q => q.correctAnswer))]
       else [ServerEvent.playerAnswered sock.playerId])) ∧
    (((handleSubmitAnswer sock gameEngines ai).1.any isRoundResults = true) ↔
      engine'.players.all (fun p => p.hasAnswered) = true) ∧
    (handleSubmitAnswer sock gameEngines ai).2 =
      alInsert gameEngines roomCode engine' := by
  unfold handleSubmitAnswer
  rw [h1]
  dsimp only
  rw [h2]
  dsimp only
  rw [h3]
  dsimp only
  rw [if_pos h4]
  refine ⟨rfl, ?_, rfl⟩
  by_cases hall : engine'.players.all (fun p => p.hasAnswered) = true
  · simp [hall, isRoundResults]
  · rw [if_neg hall]
    simp [isRoundResults, hall]

/-- Witness for C1 at Alice's submission against the two-player engine: Bob
has not answered, so no round-results event is emitted. -/
theorem handleSubmitAnswer_barrier_allPlayers_witness :
    (sockW.currentRoom = some "ROOM01" ∧
      alLookup [("ROOM01", engineW)] "ROOM01" = some engineW ∧
      submitAnswer sockW.playerId 0 engineW = some (resultAW, engineW1) ∧
      resultAW.success = true) ∧
    (((handleSubmitAnswer sockW [("ROOM01", engineW)] 0).1 =
      (if engineW1.players.all (fun p => p.hasAnswered) then
        [ServerEvent.playerAnswered sockW.playerId,
         ServerEvent.roundResults (getScores engineW1)
           ((engineW1.questions.get? engineW1.currentQuestionIndex).map
             (fun q => q.correctAnswer))]
       else [ServerEvent.playerAnswered sockW.playerId])) ∧
    (((handleSubmitAnswer sockW [("ROOM01", engineW)] 0).1.any isRoundResults
        = true) ↔
      engineW1.players.all (fun p => p.hasAnswered) = true) ∧
    (handleSubmitAnswer sockW [("ROOM01", engineW)] 0).2 =
      alInsert [("ROOM01", engineW)] "ROOM01" engineW1) :=
  ⟨⟨by decide, by decide, by decide, by decide⟩,
   handleSubmitAnswer_barrier_allPlayers sockW [("ROOM01", engineW)] 0
     "ROOM01" engineW resultAW engineW1 (by decide) (by decide) (by decide)
     (by decide)⟩

/-- A `nextQuestion` call in an active game that does not exhaust the
question list: flags and slot reset, index advanced, next question returned. -/
theorem nextQuestion_step_mid (now : Nat) (st : EngineState)
    (hs : st.gameStarted = true) (hf : st.gameFinished = false)
    (hlt : st.currentQuestionIndex + 1 < st.questions.length) :
    nextQuestion now st =
      ({ success := true,
         question := some (toClientQuestion
           { st with
               players := st.players.map (fun p => { p with hasAnswered := false })
               firstCorrectAnswerer := none
               currentQuestionIndex := st.currentQuestionIndex + 1 }
           (st.questions.getD (st.currentQuestionIndex + 1) default)),
         gameFinished := none, error := none },
       { st with
           players := st.players.map (fun p => { p with hasAnswered := false })
           firstCorrectAnswerer := none
           currentQuestionIndex := st.currentQuestionIndex + 1 }) := by
  unfold nextQuestion
  rw [if_neg (by simp [hs] : ¬ ¬ st.gameStarted = true)]
  rw [if_neg (by simp [hf] : ¬ st.gameFinished = true)]
  dsimp only
  rw [if_neg (by omega : ¬ st.questions.length ≤ st.currentQuestionIndex + 1)]

/-- The final `nextQuestion` call: the advanced index reaches the question
count, so the game finishes, the end time is recorded, and no question is
returned. -/
theorem nextQuestion_step_last (now : Nat) (st : EngineState)
    (hs : st.gameStarted = true) (hf : st.gameFinished = false)
    (hge : st.questions.length ≤ st.currentQuestionIndex + 1) :
    nextQuestion now st =
      ({ success := true, question := none, gameFinished := some true,
         error := none },
       { st with
           players := st.players.map (fun p => { p with hasAnswered := false })
           firstCorrectAnswerer := none
           currentQuestionIndex := st.currentQuestionIndex + 1
           gameFinished := true
           gameEndTime := some now }) := by
  unfold nextQuestion
  rw [if_neg (by simp [hs] : ¬ ¬ st.gameStarted = true)]
  rw [if_neg (by simp [hf] : ¬ st.gameFinished = true)]
  dsimp only
  rw [if_pos hge]

/-- Invariant of the `nextQuestion` iteration: as long as fewer calls than
questions have happened, the game is still running and the index counts the
calls. -/
theorem iterNext_invariant (nows : Nat → Nat) (st : EngineState)
    (hs : st.gameStarted = true) (hf : st.gameFinished = false)
    (hi : st.currentQuestionIndex = 0) :
    ∀ k, k < st.questions.length →
      (iterNext nows st k).gameStarted = true ∧
      (iterNext nows st k).gameFinished = false ∧
      (iterNext nows st k).currentQuestionIndex = k ∧
      (iterNext nows st k).questions = st.questions := by
  intro k
  induction k with
  | zero => exact fun _ => ⟨hs, hf, hi, rfl⟩
  | succ k ih =>
    intro hk
    obtain ⟨h1, h2, h3, h4⟩ := ih (Nat.lt_of_succ_lt hk)
    have hlt : (iterNext nows st k).currentQuestionIndex + 1 <
        (iterNext nows st k).questions.length := by
      rw [h3, h4]
      exact hk
    rw [iterNext, nextQuestion_step_mid (nows k) _ h1 h2 hlt]
    refine ⟨h1, h2, ?_, h4⟩
    rw [h3]

/-- C4: starting from the post-`startGame` state on `n` questions, each of
the `n` `nextQuestion` calls succeeds and resets every `hasAnswered` flag and
the first-correct slot; every call before the last returns the next question
with the game unfinished; the `n`-th call returns a null question with
`gameFinished = true`, leaving the engine finished with its end time
recorded. -/
theorem nextQuestion_full_run (st : EngineState) (nows : Nat → Nat) (n : Nat)
    (hs : st.gameStarted = true) (hf : st.gameFinished = false)
    (hi : st.currentQuestionIndex = 0) (hn : st.questions.length = n)
    (hpos : 0 < n) :
    (∀ k, k < n →
      (nextQuestion (nows k) (iterNext nows st k)).1.success = true ∧
      (iterNext nows st (k + 1)).players.all (fun p => !p.hasAnswered) = true ∧
      (iterNext nows st (k + 1)).firstCorrectAnswerer = none) ∧
    (∀ k, k + 1 < n →
      (nextQuestion (nows k) (iterNext nows st k)).1.gameFinished = none ∧
      (iterNext nows st (k + 1)).gameFinished = false ∧
      ∃ q, st.questions.get? (k + 1) = some q ∧
        (nextQuestion (nows k) (iterNext nows st k)).1.question =
          some (toClientQuestion (iterNext nows st (k + 1)) q)) ∧
    ((nextQuestion (nows (n - 1)) (iterNext nows st (n - 1))).1.gameFinished =
        some true ∧
      (nextQuestion (nows (n - 1)) (iterNext nows st (n - 1))).1.question =
        none ∧
      (iterNext nows st n).gameFinished = true ∧
      (iterNext nows st n).gameEndTime = some (nows (n - 1))) := by
  subst hn
  have hinv := iterNext_invariant nows st hs hf hi
  refine ⟨?_, ?_, ?_⟩
  · intro k hk
    obtain ⟨h1, h2, h3, h4⟩ := hinv k hk
    by_cases hmid : k + 1 < st.questions.length
    · have hlt : (iterNext nows st k).currentQuestionIndex + 1 <
          (iterNext nows st k).questions.length := by
        rw [h3, h4]
        exact hmid
      rw [iterNext, nextQuestion_step_mid (nows k) _ h1 h2 hlt]
      refine ⟨rfl, ?_, rfl⟩
      simp [List.all_map, Function.comp]
    · have hge : (iterNext nows st k).questions.length ≤
          (iterNext nows st k).currentQuestionIndex + 1 := by
        rw [h3, h4]
        omega
      rw [iterNext, nextQuestion_step_last (nows k) _ h1 h2 hge]
      refine ⟨rfl, ?_, rfl⟩
      simp [List.all_map, Function.comp]
  · intro k hk
    obtain ⟨h1, h2, h3, h4⟩ := hinv k (Nat.lt_of_succ_lt hk)
    have hlt : (iterNext nows st k).currentQuestionIndex + 1 <
        (iterNext nows st k).questions.length := by
      rw [h3, h4]
      exact hk
    rw [iterNext, nextQuestion_step_mid (nows k) _ h1 h2 hlt]
    refine ⟨rfl, h2, ?_⟩
    have hq : st.questions.get? (k + 1) =
        some (st.questions.getD (k + 1) default) := by
      rw [List.get?_eq_getElem?, List.getD_eq_getElem?_getD,
        List.getElem?_eq_getElem hk]
      rfl
    refine ⟨st.questions.getD (k + 1) default, hq, ?_⟩
    rw [h3, h4]
  · have hk : st.questions.length - 1 < st.questions.length := by omega
    obtain ⟨h1, h2, h3, h4⟩ := hinv (st.questions.length - 1) hk
    have hge : (iterNext nows st (st.questions.length - 1)).questions.length ≤
        (iterNext nows st (st.questions.length - 1)).currentQuestionIndex + 1 := by
      rw [h3, h4]
      omega
    have hsucc : st.questions.length - 1 + 1 = st.questions.length := by omega
    have hiter : iterNext nows st st.questions.length =
        (nextQuestion (nows (st.questions.length - 1))
          (iterNext nows st (st.questions.length - 1))).2 := by
      conv_lhs => rw [← hsucc]
      rfl
    refine ⟨?_, ?_, ?_, ?_⟩
    · rw [nextQuestion_step_last (nows (st.questions.length - 1)) _ h1 h2 hge]
    · rw [nextQuestion_step_last (nows (st.questions.length - 1)) _ h1 h2 hge]
    · rw [hiter,
        nextQuestion_step_last (nows (st.questions.length - 1)) _ h1 h2 hge]
    · rw [hiter,
        nextQuestion_step_last (nows (st.questions.length - 1)) _ h1 h2 hge]

/-- Witness for C4: the started two-question engine runs to completion in
exactly two `nextQuestion` calls. -/
theorem nextQuestion_full_run_witness :
    (engineW.gameStarted = true ∧ engineW.gameFinished = false ∧
      engineW.currentQuestionIndex = 0 ∧ engineW.questions.length = 2 ∧
      0 < 2) ∧
    ((∀ k, k < 2 →
      (nextQuestion 5 (iterNext (fun _ => 5) engineW k)).1.success = true ∧
      (iterNext (fun _ => 5) engineW (k + 1)).players.all
        (fun p => !p.hasAnswered) = true ∧
      (iterNext (fun _ => 5) engineW (k + 1)).firstCorrectAnswerer = none) ∧
    (∀ k, k + 1 < 2 →
      (nextQuestion 5 (iterNext (fun _ => 5) engineW k)).1.gameFinished =
        none ∧
      (iterNext (fun _ => 5) engineW (k + 1)).gameFinished = false ∧
      ∃ q, engineW.questions.get? (k + 1) = some q ∧
        (nextQuestion 5 (iterNext (fun _ => 5) engineW k)).1.question =
          some (toClientQuestion (iterNext (fun _ => 5) engineW (k + 1)) q)) ∧
    ((nextQuestion 5 (iterNext (fun _ => 5) engineW 1)).1.gameFinished =
        some true ∧
      (nextQuestion 5 (iterNext (fun _ => 5) engineW 1)).1.question = none ∧
      (iterNext (fun _ => 5) engineW 2).gameFinished = true ∧
      (iterNext (fun _ => 5) engineW 2).gameEndTime = some 5)) :=
  ⟨⟨by decide, by decide, by decide, by decide, by decide⟩,
   nextQuestion_full_run engineW (fun _ => 5) 2 (by decide) (by decide)
     (by decide) (by decide) (by decide)⟩

/-- Promoting the head of the remaining list after the unique host left
yields again exactly one host. -/
theorem promoted_host_count (players : List Player) (pid : String)
    (leaver q : Player) (qs : List Player)
    (hcount : players.countP (fun p => p.isHost) = 1)
    (hrem : removeFirstPlayer pid players = some (leaver, q :: qs))
    (hhost : leaver.isHost = true) :
    ({ q with isHost := true } :: qs).countP (fun p => p.isHost) = 1 := by
  have hperm := removeFirstPlayer_perm pid players leaver (q :: qs) hrem
  have hsum : (leaver :: q :: qs).countP (fun p => p.isHost) = 1 := by
    rw [← hperm.countP_eq]
    exact hcount
  rw [List.countP_cons, List.countP_cons] at hsum
  cases hq : q.isHost with
  | false =>
    simp [hq, hhost] at hsum
    have hqs0 : qs.countP (fun p => p.isHost) = 0 :=
      List.countP_eq_zero.mpr (by simpa using hsum)
    simp [List.countP_cons, hqs0]
  | true =>
    simp [hq, hhost] at hsum

/-- C5: every reachable room-directory state gives each room a non-empty
player list with exactly one host; a host leaving with players remaining
promotes exactly the earliest-joined remaining player (the head of the
join-ordered remainder) to be the unique host; and the last player leaving
removes the room from the directory. -/
theorem roomManager_invariants (st : RMState) (h : Reach st) :
    (∀ kv ∈ st.rooms, kv.2.players ≠ [] ∧
      kv.2.players.countP (fun p => p.isHost) = 1) ∧
    (∀ roomCode pid room leaver q qs,
      alLookup st.rooms roomCode = some room →
      removeFirstPlayer pid room.players = some (leaver, q :: qs) →
      leaver.isHost = true →
      alLookup (leaveRoom roomCode pid st).2.rooms roomCode =
        some { room with players := { q with isHost := true } :: qs } ∧
      ({ q with isHost := true } :: qs).countP (fun p => p.isHost) = 1) ∧
    (∀ roomCode pid room leaver,
      alLookup st.rooms roomCode = some room →
      removeFirstPlayer pid room.players = some (leaver, []) →
      alLookup (leaveRoom roomCode pid st).2.rooms roomCode = none) := by
  have hwf := reach_rmWF st h
  refine ⟨fun kv hkv => hwf kv hkv, ?_, ?_⟩
  · intro roomCode pid room leaver q qs hlook hrem hhost
    have hcount := (hwf (roomCode, room) (alLookup_mem hlook)).2
    refine ⟨?_, promoted_host_count room.players pid leaver q qs hcount hrem
      hhost⟩
    unfold leaveRoom
    rw [hlook]
    dsimp only
    rw [hrem]
    dsimp only
    rw [if_pos (show leaver.isHost = true ∧ (q :: qs).length ≠ 0 from
      ⟨hhost, by simp⟩)]
    rw [if_neg (by simp : ¬ (({ q with isHost := true } :: qs).length = 0))]
    exact alLookup_alInsert_self st.rooms roomCode _
  · intro roomCode pid room leaver hlook hrem
    unfold leaveRoom
    rw [hlook]
    dsimp only
    rw [hrem]
    dsimp only
    rw [if_neg (show ¬ (leaver.isHost = true ∧ ([] : List Player).length ≠ 0)
      from fun hc => hc.2 rfl)]
    rw [if_pos (show ([] : List Player).length = 0 from rfl)]
    exact alLookup_alErase_self st.rooms roomCode

/-- Witness for C5 at the concrete two-player room `AAAAAA` reached by a
create followed by a join. -/
theorem roomManager_invariants_witness :
    Reach rmW2 ∧
    ((∀ kv ∈ rmW2.rooms, kv.2.players ≠ [] ∧
      kv.2.players.countP (fun p => p.isHost) = 1) ∧
    (∀ roomCode pid room leaver q qs,
      alLookup rmW2.rooms roomCode = some room →
      removeFirstPlayer pid room.players = some (leaver, q :: qs) →
      leaver.isHost = true →
      alLookup (leaveRoom roomCode pid rmW2).2.rooms roomCode =
        some { room with players := { q with isHost := true } :: qs } ∧
      ({ q with isHost := true } :: qs).countP (fun p => p.isHost) = 1) ∧
    (∀ roomCode pid room leaver,
      alLookup rmW2.rooms roomCode = some room →
      removeFirstPlayer pid room.players = some (leaver, []) →
      alLookup (leaveRoom roomCode pid rmW2).2.rooms roomCode = none)) :=
  have hreach : Reach rmW2 :=
    Reach.join rmW1 "AAAAAA" "p2" "Bob"
      (Reach.create { rooms := [], playerRoomMap := [] } [attA] "p1" "Alice" 0
        roomW1 rmW1 Reach.init (by decide))
  ⟨hreach, roomManager_invariants rmW2 hreach⟩

/-- C6: the client question shape produced by the engine has no
correct-answer field: the conversion is invariant under changing
`correctAnswer`, carries exactly the id, text, options, 1-based number, total
count (and the audio reference), and every question emitted by `startGame`,
`nextQuestion`, and `getCurrentQuestion` is such a conversion of a question
in the engine's list. -/
theorem clientQuestion_strips_answer (st : EngineState) (q : Question)
    (now : Nat) :
    (∀ c, toClientQuestion st { q with correctAnswer := c } =
      toClientQuestion st q) ∧
    ((toClientQuestion st q).id = q.id ∧
     (toClientQuestion st q).question = q.question ∧
     (toClientQuestion st q).options = q.options ∧
     (toClientQuestion st q).currentQuestionNumber =
       st.currentQuestionIndex + 1 ∧
     (toClientQuestion st q).totalQuestions = st.questions.length) ∧
    (∀ cq, (startGame now st).1.question = some cq →
      ∃ q' ∈ st.questions, cq.id = q'.id ∧ cq.question = q'.question ∧
        cq.options = q'.options ∧
        cq.currentQuestionNumber = st.currentQuestionIndex + 1 ∧
        cq.totalQuestions = st.questions.length) ∧
    (∀ cq, (nextQuestion now st).1.question = some cq →
      ∃ q' ∈ st.questions, cq = toClientQuestion (nextQuestion now st).2 q') ∧
    (∀ cq, getCurrentQuestion st = some cq →
      ∃ q' ∈ st.questions, cq = toClientQuestion st q') := by
  refine ⟨fun c => rfl, ⟨rfl, rfl, rfl, rfl, rfl⟩, ?_, ?_, ?_⟩
  · intro cq hcq
    unfold startGame at hcq
    by_cases h1 : st.gameStarted = true
    · rw [if_pos h1] at hcq
      simp at hcq
    · rw [if_neg h1] at hcq
      by_cases h2 : st.questions.length = 0
      · rw [if_pos h2] at hcq
        simp at hcq
      · rw [if_neg h2] at hcq
        by_cases h3 : st.players.length = 0
        · rw [if_pos h3] at hcq
          simp at hcq
        · rw [if_neg h3] at hcq
          dsimp only at hcq
          obtain ⟨q0, rest, hqs⟩ : ∃ a l, st.questions = a :: l := by
            cases hq : st.questions with
            | nil => exact absurd (by simp [hq] : st.questions.length = 0) h2
            | cons a l => exact ⟨a, l, rfl⟩
          rw [hqs] at hcq
          dsimp only at hcq
          simp only [Option.some.injEq] at hcq
          refine ⟨q0, by rw [hqs]; exact List.mem_cons_self q0 rest,
            ?_, ?_, ?_, ?_, ?_⟩
          · rw [← hcq]
            rfl
          · rw [← hcq]
            rfl
          · rw [← hcq]
            rfl
          · rw [← hcq]
            rfl
          · rw [← hcq, hqs]
            rfl
  · intro cq hcq
    by_cases h1 : st.gameStarted = true
    · by_cases h2 : st.gameFinished = true
      · unfold nextQuestion at hcq
        rw [if_neg (by simp [h1] : ¬ ¬ st.gameStarted = true),
          if_pos h2] at hcq
        simp at hcq
      · have hf : st.gameFinished = false := by simpa using h2
        by_cases h3 : st.questions.length ≤ st.currentQuestionIndex + 1
        · rw [nextQuestion_step_last now st h1 hf h3] at hcq
          simp at hcq
        · have hlt : st.currentQuestionIndex + 1 < st.questions.length := by
            omega
          rw [nextQuestion_step_mid now st h1 hf hlt] at hcq
          simp only [Option.some.injEq] at hcq
          rw [nextQuestion_step_mid now st h1 hf hlt]
          refine ⟨st.questions.getD (st.currentQuestionIndex + 1) default,
            ?_, ?_⟩
          · rw [List.getD_eq_getElem?_getD, List.getElem?_eq_getElem hlt]
            exact List.getElem_mem hlt
          · exact hcq.symm
    · unfold nextQuestion at hcq
      rw [if_pos (by simp [h1] : ¬ st.gameStarted = true)] at hcq
      simp at hcq
  · intro cq hcq
    unfold getCurrentQuestion at hcq
    by_cases h1 : ¬ st.gameStarted = true ∨ st.gameFinished = true
    · rw [if_pos h1] at hcq
      simp at hcq
    · rw [if_neg h1] at hcq
      rcases Option.map_eq_some'.mp hcq with ⟨q', hget, htc⟩
      exact ⟨q', List.get?_mem hget, htc.symm⟩

/-- Witness for C6 at a concrete engine, question, and time. -/
theorem clientQuestion_strips_answer_witness :
    toClientQuestion engineW { qW1 with correctAnswer := 5 } =
      toClientQuestion engineW qW1 ∧
    (toClientQuestion engineW qW1).id = qW1.id :=
  ⟨(clientQuestion_strips_answer engineW qW1 7).1 5,
   (clientQuestion_strips_answer engineW qW1 7).2.1.1⟩

/-- The game id returned by `registerGame` is the content hash, whether or
not the definition was already registered. -/
theorem registerGame_fst (hash : String → String) (questions : List Question)
    (now : Nat) (st : LBState) :
    (registerGame hash questions now st).1 = generateGameId hash questions := by
  unfold registerGame
  by_cases hc : (alLookup st.gameDefinitions
      (generateGameId hash questions)).isSome
  · rw [if_pos hc]
  · rw [if_neg hc]

/-- C7: after `submitGameResults`, the group stored under the computed game
id is the sorted-and-trimmed merge of the previous group with one fresh
entry per strictly-positive submitted score: it is sorted by score descending
with earlier timestamps winning ties, holds at most 100 entries, and a
player's entry is appended if and only if that player's score is strictly
positive. -/
theorem submitGameResults_spec (hash : String → String)
    (questions : List Question) (roomCode : String)
    (playerScores : List PlayerScore) (gameDuration : Option Nat) (now : Nat)
    (st : LBState) :
    ∃ group,
      alLookup (submitGameResults hash questions roomCode playerScores
          gameDuration now st).2.leaderboards
        (submitGameResults hash questions roomCode playerScores gameDuration
          now st).1 = some group ∧
      group = (sortLE entryLE
        (((alLookup (registerGame hash questions now st).2.leaderboards
            (generateGameId hash questions)).getD []) ++
          (playerScores.filter (fun p => 0 < p.score)).map
            (mkEntry roomCode gameDuration now))).take 100 ∧
      group.Pairwise (fun a b => entryLE a b = true) ∧
      group.length ≤ 100 ∧
      (∀ p ∈ playerScores, (0 < p.score ↔
        mkEntry roomCode gameDuration now p ∈
          (playerScores.filter (fun p' => 0 < p'.score)).map
            (mkEntry roomCode gameDuration now))) := by
  unfold submitGameResults
  dsimp only
  rw [registerGame_fst hash questions now st]
  refine ⟨_, alLookup_alInsert_self _ _ _, rfl, ?_, ?_, ?_⟩
  · exact List.Pairwise.sublist (List.take_sublist 100 _)
      (pairwise_sortLE entryLE entryLE_total entryLE_trans _)
  · rw [List.length_take]
    exact min_le_left 100 _
  · intro p hp
    constructor
    · intro hpos
      exact List.mem_map_of_mem _ (List.mem_filter.mpr ⟨hp, by simpa using hpos⟩)
    · intro hmem
      rcases List.mem_map.mp hmem with ⟨p', hp', heq⟩
      have hpos' : 0 < p'.score := by
        simpa using (List.mem_filter.mp hp').2
      have hscore : p'.score = p.score :=
        congrArg GlobalLeaderboardEntry.score heq
      omega

/-- Witness for C7 at a concrete submission mixing zero and positive
scores. -/
theorem submitGameResults_spec_witness :
    ∃ group,
      alLookup (submitGameResults (fun s => s) [qW1] "ROOM01" psW none 5
          { leaderboards := [], gameDefinitions := [] }).2.leaderboards
        (submitGameResults (fun s => s) [qW1] "ROOM01" psW none 5
          { leaderboards := [], gameDefinitions := [] }).1 = some group ∧
      group = (sortLE entryLE
        (((alLookup (registerGame (fun s => s) [qW1] 5
            { leaderboards := [], gameDefinitions := [] }).2.leaderboards
            (generateGameId (fun s => s) [qW1])).getD []) ++
          (psW.filter (fun p => 0 < p.score)).map
            (mkEntry "ROOM01" none 5))).take 100 ∧
      group.Pairwise (fun a b => entryLE a b = true) ∧
      group.length ≤ 100 ∧
      (∀ p ∈ psW, (0 < p.score ↔
        mkEntry "ROOM01" none 5 p ∈
          (psW.filter (fun p' => 0 < p'.score)).map
            (mkEntry "ROOM01" none 5))) :=
  submitGameResults_spec (fun s => s) [qW1] "ROOM01" psW none 5
    { leaderboards := [], gameDefinitions := [] }

end Trivia
